import Mathlib

/-!
Verification of the fellow-mcp server (src/index.ts, src/database.ts).

The TypeScript source is shallowly embedded: the SQLite-backed store becomes a
pure record of lists (`DB`), each database method a pure function on it, and
the remote Fellow API a value of type `Remote` mapping filter options to the
already-paginated list of page results (a page fetch either succeeds with a
list of entities or fails, modelling a thrown `Fellow API error`).  The
JavaScript regular expressions of the action-item extractor are embedded as
deterministic scanners that reproduce the exact backtracking behaviour of the
source patterns.  Wall-clock reads (`new Date().toISOString()`) become an
explicit `now : String` parameter.
-/

/-! ## JavaScript character classes and string primitives -/

/-- JS `\s` (RegExp whitespace): WhiteSpace ∪ LineTerminator code points. -/
def jsWhitespace (c : Char) : Bool :=
  c == ' ' || c == '\t' || c == '\n' || c == '\x0b' || c == '\x0c' || c == '\r' ||
  c == '\u00A0' || c == '\u1680' ||
  ('\u2000' ≤ c && c ≤ '\u200A') ||
  c == '\u2028' || c == '\u2029' || c == '\u202F' || c == '\u205F' ||
  c == '\u3000' || c == '\uFEFF'

/-- JS `\w`: `[A-Za-z0-9_]`. -/
def isWordChar (c : Char) : Bool :=
  c.isAlpha || c.isDigit || c == '_'

/-- JS `.` (dot, no `s` flag): any char except a line terminator. -/
def isNonTerm (c : Char) : Bool :=
  !(c == '\n' || c == '\r' || c == '\u2028' || c == '\u2029')

/-- `\s*`: greedily drop JS whitespace. -/
def skipWs (t : List Char) : List Char :=
  t.dropWhile jsWhitespace

/-- JS `String.prototype.trim` on a char list (strips `\s` at both ends). -/
def listTrim (t : List Char) : List Char :=
  ((t.dropWhile jsWhitespace).reverse.dropWhile jsWhitespace).reverse

/-- JS `String.prototype.trim`. -/
def jsTrimStr (s : String) : String :=
  String.mk (listTrim s.data)

/-- JS `"a\nb".split("\n")` on the underlying char list. -/
def splitLines : List Char → List (List Char)
  | [] => [[]]
  | '\n' :: rest => [] :: splitLines rest
  | c :: rest =>
    match splitLines rest with
    | l :: ls => (c :: l) :: ls
    | [] => [[c]]

/-- Executable substring test: does `sub` occur contiguously in `s`? -/
def listContainsSub (sub : List Char) : List Char → Bool
  | [] => sub.isPrefixOf ([] : List Char)
  | c :: rest => sub.isPrefixOf (c :: rest) || listContainsSub sub rest

/-- Executable substring test on strings. -/
def strContainsSub (s sub : String) : Bool :=
  listContainsSub sub.data s.data

/-- The trailing `\s*(.+)` of the extractor regexes, with the greedy
backtracking of `\s*` against `.+` (a line of only whitespace still matches,
capturing the last non-terminator whitespace char). `i` is the number of
whitespace chars currently consumed by `\s*`, tried from maximal down. -/
def dotBackoff (t : List Char) : Nat → Option (List Char)
  | 0 =>
    match t with
    | c :: _ => if isNonTerm c then some (t.takeWhile isNonTerm) else none
    | [] => none
  | i + 1 =>
    match t.drop (i + 1) with
    | c :: _ =>
      if isNonTerm c then some ((t.drop (i + 1)).takeWhile isNonTerm) else dotBackoff t i
    | [] => dotBackoff t i

/-- Match `\s*(.+)` at the start of `t`, returning the `(.+)` capture. -/
def wsDotPlus (t : List Char) : Option (List Char) :=
  dotBackoff t (t.takeWhile jsWhitespace).length

/-- Consume a literal case-insensitively (JS `/i` flag, ASCII letters). -/
def matchLitCI : List Char → List Char → Option (List Char)
  | [], t => some t
  | _ :: _, [] => none
  | l :: ls, c :: t => if l.toLower == c.toLower then matchLitCI ls t else none

/-- Run `f` at every start position left to right; first success wins.
This is how an unanchored JS regex is matched against a string. -/
def scanFor (f : List Char → Option α) : List Char → Option α
  | [] => f []
  | c :: t =>
    match f (c :: t) with
    | some r => some r
    | none => scanFor f t

/-! ## parseAssigneeAndDueDate (src/index.ts) -/

/-- `@(\w+)`: first `@` followed by at least one word char; capture the
maximal word-char run after it. -/
def findMention : List Char → Option (List Char)
  | [] => none
  | '@' :: rest =>
    let run := rest.takeWhile isWordChar
    if run.isEmpty then findMention rest else some run
  | _ :: rest => findMention rest

/-- Take exactly `n` chars all satisfying `p` (a fixed `\d{n}` repetition). -/
def takeExact : Nat → (Char → Bool) → List Char → Option (List Char × List Char)
  | 0, _, t => some ([], t)
  | _ + 1, _, [] => none
  | n + 1, p, c :: t =>
    if p c then (takeExact n p t).map (fun r => (c :: r.1, r.2)) else none

/-- Require char `c` next. -/
def expectChar (c : Char) : List Char → Option (List Char)
  | x :: t => if x == c then some t else none
  | [] => none

/-- `(\d{4}-\d{2}-\d{2})` at the current position; returns the capture. -/
def tryIso (t : List Char) : Option String :=
  (takeExact 4 Char.isDigit t).bind fun yr =>
  (expectChar '-' yr.2).bind fun t2 =>
  (takeExact 2 Char.isDigit t2).bind fun mr =>
  (expectChar '-' mr.2).bind fun t4 =>
  (takeExact 2 Char.isDigit t4).map fun dr =>
  String.mk yr.1 ++ "-" ++ String.mk mr.1 ++ "-" ++ String.mk dr.1

/-- `\d{1,2}\/`: one or two digits followed by a slash (greedy, backtracking
from two digits down to one); returns the digits and the rest after `/`. -/
def digits12Slash : List Char → Option (String × List Char)
  | a :: b :: c :: rest =>
    if a.isDigit && b.isDigit && c == '/' then some (String.mk [a, b], rest)
    else if a.isDigit && b == '/' then some (String.mk [a], c :: rest)
    else none
  | [a, b] => if a.isDigit && b == '/' then some (String.mk [a], ([] : List Char)) else none
  | _ => none

/-- `(\d{1,2}\/\d{1,2}\/\d{2,4})` at the current position; returns the three
digit groups (month, day, year) that `split("/")` recovers in the source. -/
def tryUs (t : List Char) : Option (String × String × String) :=
  (digits12Slash t).bind fun mr =>
  (digits12Slash mr.2).bind fun dr =>
  let run := dr.2.takeWhile Char.isDigit
  if run.length ≥ 2 then some (mr.1, dr.1, String.mk (run.take 4)) else none

/-- JS `s.padStart(2, "0")`. -/
def padStart2 (s : String) : String :=
  if s.length ≥ 2 then s else "0" ++ s

/-- The US-date normalisation of `parseAssigneeAndDueDate`: zero-pad month and
day, promote a two-digit year into the 2000s, emit `year-month-day`. -/
def usToDue (m d y : String) : String :=
  (if y.length == 2 then "20" ++ y else y) ++ "-" ++ padStart2 m ++ "-" ++ padStart2 d

/-- `\s*:?\s*` after the keyword. -/
def afterColonWs (t : List Char) : List Char :=
  let t1 := skipWs t
  let t2 := match t1 with
    | ':' :: r => r
    | _ => t1
  skipWs t2

/-- `(?:due|by|deadline)` (case-insensitive, in source alternation order),
each alternative continued by `cont`. -/
def tryKw (cont : List Char → Option α) (t : List Char) : Option α :=
  match (matchLitCI "due".data t).bind cont with
  | some r => some r
  | none =>
    match (matchLitCI "by".data t).bind cont with
    | some r => some r
    | none => (matchLitCI "deadline".data t).bind cont

structure AssigneeDue where
  assignee : Option String
  dueDate : Option String
deriving DecidableEq

/-- `parseAssigneeAndDueDate` from src/index.ts: first `@mention` anywhere
becomes the assignee; an ISO date after a due/by/deadline keyword wins over a
US-format date after such a keyword. -/
def parseAssigneeAndDueDate (text : String) : AssigneeDue :=
  let assignee := (findMention text.data).map String.mk
  let iso := scanFor (tryKw (fun r => tryIso (afterColonWs r))) text.data
  let usm := scanFor (tryKw (fun r => tryUs (afterColonWs r))) text.data
  let dueDate :=
    match iso with
    | some d => some d
    | none => usm.map (fun p => usToDue p.1 p.2.1 p.2.2)
  ⟨assignee, dueDate⟩

/-! ## extractActionItems (src/index.ts) -/

structure ParsedActionItem where
  content : String
  assignee : Option String
  due_date : Option String
  is_completed : Bool
deriving DecidableEq

/-- `^\s*[-*]\s*\[([ xX])\]\s*(.+)`: checkbox pattern. Returns the flag char
and the `(.+)` capture. -/
def matchCheckboxLine (t : List Char) : Option (Char × List Char) :=
  match skipWs t with
  | c :: r =>
    if c == '-' || c == '*' then
      match skipWs r with
      | '[' :: f :: ']' :: rest =>
        if f == ' ' || f == 'x' || f == 'X' then
          (wsDotPlus rest).map (fun cap => (f, cap))
        else none
      | _ => none
    else none
  | [] => none

/-- `\s*:\s*(.+)` after a label alternative. -/
def colonRest (v : List Char) : Option (List Char) :=
  match skipWs v with
  | ':' :: v2 => wsDotPlus v2
  | _ => none

/-- `(?:Action\s*Item|Action|TODO|To-Do|To Do)\s*:\s*(.+)` with the source's
alternation order and the regex backtracking into later alternatives when a
trailing part fails. -/
def actionAlts (u : List Char) : Option (List Char) :=
  match (matchLitCI "Action".data u).bind
      (fun r => (matchLitCI "Item".data (skipWs r)).bind colonRest) with
  | some x => some x
  | none =>
    match (matchLitCI "Action".data u).bind colonRest with
    | some x => some x
    | none =>
      match (matchLitCI "TODO".data u).bind colonRest with
      | some x => some x
      | none =>
        match (matchLitCI "To-Do".data u).bind colonRest with
        | some x => some x
        | none => (matchLitCI "To Do".data u).bind colonRest

/-- `^\s*[-*]?\s*(?:...)` — the labelled pattern, trying first with and then
without the optional bullet. Returns the `(.+)` capture. -/
def matchActionLine (t : List Char) : Option (List Char) :=
  let t1 := skipWs t
  let withBullet :=
    match t1 with
    | c :: r => if c == '-' || c == '*' then actionAlts (skipWs r) else none
    | [] => none
  match withBullet with
  | some x => some x
  | none => actionAlts (skipWs t1)

/-- `\s*[-:]\s*(.+)` — the separator and remainder of the mention pattern. -/
def sepRest (u : List Char) : Option (List Char) :=
  match skipWs u with
  | c :: u2 => if c == '-' || c == ':' then wsDotPlus u2 else none
  | [] => none

/-- The lazy `[\w\s]*?` extension of the mention pattern: starting from the
shortest extension, grow over word/whitespace chars until the separator
matches. `consumed` accumulates the capture so far. -/
def lazyAsc (consumed : List Char) (u : List Char) : Option (List Char × List Char) :=
  match sepRest u with
  | some cap2 => some (consumed, cap2)
  | none =>
    match u with
    | c :: u2 =>
      if isWordChar c || jsWhitespace c then lazyAsc (consumed ++ [c]) u2 else none
    | [] => none

/-- Backtracking of the greedy `@\w+` of the mention pattern: shrink the word
run below its maximum (positions above the maximum were already tried by the
lazy extension), trying `j+1` word chars then recursing downward to 1. -/
def descJ (t3 : List Char) : Nat → Option (List Char × List Char)
  | 0 => none
  | j + 1 =>
    match sepRest (t3.drop (j + 1)) with
    | some cap2 => some (t3.take (j + 1), cap2)
    | none => descJ t3 j

/-- `^\s*[-*]\s*(@\w+[\w\s]*?)\s*[-:]\s*(.+)`: mention pattern. Returns the
chars of capture 1 after the `@` (which `replace("@", "")` strips in the
source) and the `(.+)` capture. -/
def matchMentionLine (t : List Char) : Option (List Char × List Char) :=
  match skipWs t with
  | c :: r =>
    if c == '-' || c == '*' then
      match skipWs r with
      | '@' :: t3 =>
        let w := t3.takeWhile isWordChar
        if w.isEmpty then none
        else
          match lazyAsc w (t3.drop w.length) with
          | some res => some res
          | none => descJ t3 (w.length - 1)
      | _ => none
    else none
  | [] => none

/-- One line of `extractActionItems`: the three patterns in priority order,
at most one item per line. -/
def parseLineChars (line : List Char) : Option ParsedActionItem :=
  match matchCheckboxLine line with
  | some fc =>
    let itemContent := String.mk (listTrim fc.2)
    let pd := parseAssigneeAndDueDate itemContent
    some { content := itemContent, assignee := pd.assignee, due_date := pd.dueDate,
           is_completed := fc.1 == 'x' || fc.1 == 'X' }
  | none =>
    match matchActionLine line with
    | some cap =>
      let itemContent := String.mk (listTrim cap)
      let pd := parseAssigneeAndDueDate itemContent
      some { content := itemContent, assignee := pd.assignee, due_date := pd.dueDate,
             is_completed := false }
    | none =>
      match matchMentionLine line with
      | some mc =>
        let assignee := String.mk (listTrim mc.1)
        let itemContent := String.mk (listTrim mc.2)
        let pd := parseAssigneeAndDueDate itemContent
        some { content := "@" ++ assignee ++ ": " ++ itemContent, assignee := some assignee,
               due_date := pd.dueDate, is_completed := false }
      | none => none

/-- `extractActionItems` from src/index.ts: split on newlines, scan each line
with the three patterns, first match per line wins. -/
def extractActionItems (content : String) : List ParsedActionItem :=
  (splitLines content.data).filterMap parseLineChars

/-! ## Local store (src/database.ts) -/

structure StoredNote where
  id : String
  title : String
  created_at : String
  updated_at : String
  event_start : Option String
  event_end : Option String
  event_guid : Option String
  call_url : Option String
  content_markdown : Option String
  synced_at : String
deriving DecidableEq

structure StoredRecording where
  id : String
  note_id : String
  title : String
  created_at : String
  updated_at : String
  event_start : Option String
  event_end : Option String
  recording_start : Option String
  recording_end : Option String
  event_guid : Option String
  call_url : Option String
  transcript_json : Option String
  synced_at : String
deriving DecidableEq

structure StoredActionItem where
  id : Nat
  note_id : String
  content : String
  assignee : Option String
  due_date : Option String
  is_completed : Bool
  created_at : String
deriving DecidableEq

structure StoredParticipant where
  id : Nat
  note_id : String
  email : String
deriving DecidableEq

/-- The SQLite file of FellowDatabase as a pure value: one list per table,
row-id counters for the AUTOINCREMENT columns, and the single
`sync_status.last_sync` value. -/
structure DB where
  notes : List StoredNote
  recordings : List StoredRecording
  action_items : List StoredActionItem
  participants : List StoredParticipant
  next_action_id : Nat
  next_participant_id : Nat
  last_sync : Option String
deriving DecidableEq

def emptyDB : DB := ⟨[], [], [], [], 1, 1, none⟩

/-- The argument of `upsertNote` (`Omit<StoredNote, "synced_at">`). -/
structure NoteUpsert where
  id : String
  title : String
  created_at : String
  updated_at : String
  event_start : Option String
  event_end : Option String
  event_guid : Option String
  call_url : Option String
  content_markdown : Option String
deriving DecidableEq

/-- The argument of `upsertRecording` (`Omit<StoredRecording, "synced_at">`). -/
structure RecordingUpsert where
  id : String
  note_id : String
  title : String
  created_at : String
  updated_at : String
  event_start : Option String
  event_end : Option String
  recording_start : Option String
  recording_end : Option String
  event_guid : Option String
  call_url : Option String
  transcript_json : Option String
deriving DecidableEq

/-- The `ON CONFLICT(id) DO UPDATE SET` clause of `upsertNote`: `id` and
`created_at` are not in the SET list and stay; `content_markdown` is
`COALESCE(excluded.content_markdown, content_markdown)`. -/
def applyNoteUpdate (m : StoredNote) (n : NoteUpsert) (now : String) : StoredNote :=
  { m with
    title := n.title
    updated_at := n.updated_at
    event_start := n.event_start
    event_end := n.event_end
    event_guid := n.event_guid
    call_url := n.call_url
    content_markdown :=
      match n.content_markdown with
      | some c => some c
      | none => m.content_markdown
    synced_at := now }

/-- `FellowDatabase.upsertNote`: INSERT .. ON CONFLICT(id) DO UPDATE. -/
def upsertNote (db : DB) (n : NoteUpsert) (now : String) : DB :=
  if db.notes.any (fun m => m.id == n.id) then
    { db with notes := db.notes.map (fun m => if m.id == n.id then applyNoteUpdate m n now else m) }
  else
    { db with notes := db.notes ++
        [⟨n.id, n.title, n.created_at, n.updated_at, n.event_start, n.event_end,
          n.event_guid, n.call_url, n.content_markdown, now⟩] }

/-- `FellowDatabase.getNote`: SELECT * FROM notes WHERE id = ?. -/
def getNote (db : DB) (id : String) : Option StoredNote :=
  db.notes.find? (fun n => n.id == id)

/-- Descending TEXT order with SQLite NULL placement for `ORDER BY x DESC`
(NULLs sort smallest, hence last under DESC). -/
def eventStartDescB (a b : Option String) : Bool :=
  match a, b with
  | some x, some y => decide (y ≤ x)
  | some _, none => true
  | none, some _ => false
  | none, none => true

def sortNotesByEventStart (l : List StoredNote) : List StoredNote :=
  List.insertionSort (fun a b => eventStartDescB a.event_start b.event_start = true) l

/-- `FellowDatabase.getAllNotes`: SELECT * FROM notes ORDER BY event_start DESC. -/
def getAllNotes (db : DB) : List StoredNote :=
  sortNotesByEventStart db.notes

/-- SQLite `LIKE`, fuel-indexed so it is structurally recursive: `%` matches
any run of chars, `_` exactly one char, letters compare ASCII
case-insensitively. The fuel never runs out when it starts at
`|pattern| + |text| + 1`. -/
def likeMatchFuel : Nat → List Char → List Char → Bool
  | 0, _, _ => false
  | _ + 1, [], [] => true
  | _ + 1, [], _ :: _ => false
  | fu + 1, '%' :: ps, t =>
    likeMatchFuel fu ps t ||
      (match t with
       | [] => false
       | _ :: ts => likeMatchFuel fu ('%' :: ps) ts)
  | fu + 1, '_' :: ps, t =>
    (match t with
     | [] => false
     | _ :: ts => likeMatchFuel fu ps ts)
  | fu + 1, p :: ps, t =>
    match t with
    | [] => false
    | c :: ts => (p.toLower == c.toLower) && likeMatchFuel fu ps ts

/-- `text LIKE pattern` in SQLite. -/
def likeMatch (pattern s : String) : Bool :=
  likeMatchFuel (pattern.data.length + s.data.length + 1) pattern.data s.data

/-- `FellowDatabase.searchNotes`: WHERE title LIKE ? OR content_markdown
LIKE ? with pattern `%query%` (the query is interpolated unescaped), ORDER BY
event_start DESC. A NULL `content_markdown` never matches (SQL NULL). -/
def searchNotes (db : DB) (query : String) : List StoredNote :=
  let pat := "%" ++ query ++ "%"
  sortNotesByEventStart (db.notes.filter (fun n =>
    likeMatch pat n.title ||
      (match n.content_markdown with
       | some c => likeMatch pat c
       | none => false)))

/-- The `ON CONFLICT(id) DO UPDATE SET` clause of `upsertRecording`:
`id` and `created_at` stay; `transcript_json` is
`COALESCE(excluded.transcript_json, transcript_json)`. -/
def applyRecordingUpdate (m : StoredRecording) (r : RecordingUpsert) (now : String) :
    StoredRecording :=
  { m with
    note_id := r.note_id
    title := r.title
    updated_at := r.updated_at
    event_start := r.event_start
    event_end := r.event_end
    recording_start := r.recording_start
    recording_end := r.recording_end
    event_guid := r.event_guid
    call_url := r.call_url
    transcript_json :=
      match r.transcript_json with
      | some t => some t
      | none => m.transcript_json
    synced_at := now }

/-- `FellowDatabase.upsertRecording`. -/
def upsertRecording (db : DB) (r : RecordingUpsert) (now : String) : DB :=
  if db.recordings.any (fun m => m.id == r.id) then
    { db with recordings :=
        db.recordings.map (fun m => if m.id == r.id then applyRecordingUpdate m r now else m) }
  else
    { db with recordings := db.recordings ++
        [⟨r.id, r.note_id, r.title, r.created_at, r.updated_at, r.event_start, r.event_end,
          r.recording_start, r.recording_end, r.event_guid, r.call_url, r.transcript_json, now⟩] }

/-- `FellowDatabase.clearActionItemsForNote`: DELETE FROM action_items WHERE
note_id = ?. -/
def clearActionItemsForNote (db : DB) (noteId : String) : DB :=
  { db with action_items := db.action_items.filter (fun a => !(a.note_id == noteId)) }

/-- The argument of `insertActionItem` (`Omit<StoredActionItem, "id">`). -/
structure ActionItemInsert where
  note_id : String
  content : String
  assignee : Option String
  due_date : Option String
  is_completed : Bool
  created_at : String
deriving DecidableEq

/-- `FellowDatabase.insertActionItem`: plain INSERT, id from AUTOINCREMENT. -/
def insertActionItem (db : DB) (item : ActionItemInsert) : DB :=
  { db with
    action_items := db.action_items ++
      [⟨db.next_action_id, item.note_id, item.content, item.assignee, item.due_date,
        item.is_completed, item.created_at⟩]
    next_action_id := db.next_action_id + 1 }

/-- A row of `getAllActionItems`: `SELECT a.*, n.title as note_title,
n.event_start`. -/
structure ActionItemRow where
  id : Nat
  note_id : String
  content : String
  assignee : Option String
  due_date : Option String
  is_completed : Bool
  created_at : String
  note_title : String
  event_start : Option String
deriving DecidableEq

def sortRowsByEventStart (l : List ActionItemRow) : List ActionItemRow :=
  List.insertionSort (fun a b => eventStartDescB a.event_start b.event_start = true) l

/-- `FellowDatabase.getAllActionItems`: inner join with notes; the assignee
clause is added only for a truthy filter and is `a.assignee LIKE %?%` (NULL
assignee never matches); the completion clause is added whenever the filter
is not undefined; the since clause is added only for a truthy filter and is
`n.event_start >= ?` (NULL event_start never matches); ORDER BY
n.event_start DESC. -/
def getAllActionItems (db : DB) (assignee : Option String) (is_completed : Option Bool)
    (since : Option String) : List ActionItemRow :=
  sortRowsByEventStart (db.action_items.filterMap (fun a =>
    match getNote db a.note_id with
    | none => none
    | some n =>
      let keep :=
        (match assignee with
         | none => true
         | some filt =>
           if filt == "" then true
           else
             match a.assignee with
             | none => false
             | some s => likeMatch ("%" ++ filt ++ "%") s) &&
        (match is_completed with
         | none => true
         | some b => a.is_completed == b) &&
        (match since with
         | none => true
         | some filt =>
           if filt == "" then true
           else
             match n.event_start with
             | none => false
             | some es => decide (filt ≤ es))
      if keep then
        some ⟨a.id, a.note_id, a.content, a.assignee, a.due_date, a.is_completed,
              a.created_at, n.title, n.event_start⟩
      else none))

/-- `FellowDatabase.clearParticipantsForNote`. -/
def clearParticipantsForNote (db : DB) (noteId : String) : DB :=
  { db with participants := db.participants.filter (fun p => !(p.note_id == noteId)) }

/-- `FellowDatabase.insertParticipant`: INSERT OR IGNORE against the
UNIQUE(note_id, email) constraint. -/
def insertParticipant (db : DB) (noteId email : String) : DB :=
  if db.participants.any (fun p => p.note_id == noteId && p.email == email) then db
  else
    { db with
      participants := db.participants ++ [⟨db.next_participant_id, noteId, email⟩]
      next_participant_id := db.next_participant_id + 1 }

/-- Distinct participant emails of note `noteId` among `emails`:
`COUNT(DISTINCT p.email) .. WHERE p.note_id = n.id AND p.email IN (..)`. -/
def countDistinctMatching (db : DB) (noteId : String) (emails : List String) : Nat :=
  (((db.participants.filter (fun p => p.note_id == noteId && emails.contains p.email)).map
      (fun p => p.email)).dedup).length

/-- `FellowDatabase.getMeetingsByParticipants`: SELECT DISTINCT n.* joined
against participants with email IN the list, ORDER BY event_start DESC. -/
def getMeetingsByParticipants (db : DB) (emails : List String) : List StoredNote :=
  if emails.isEmpty then []
  else
    sortNotesByEventStart (db.notes.filter (fun n =>
      db.participants.any (fun p => p.note_id == n.id && emails.contains p.email)))

/-- `FellowDatabase.getMeetingsWithAllParticipants`: keep notes whose count of
distinct matching participant emails equals `emails.length`, ORDER BY
event_start DESC. -/
def getMeetingsWithAllParticipants (db : DB) (emails : List String) : List StoredNote :=
  if emails.isEmpty then []
  else
    sortNotesByEventStart (db.notes.filter (fun n =>
      countDistinctMatching db n.id emails == emails.length))

/-- `FellowDatabase.getParticipantsForNote`. -/
def getParticipantsForNote (db : DB) (noteId : String) : List String :=
  (db.participants.filter (fun p => p.note_id == noteId)).map (fun p => p.email)

/-- `FellowDatabase.getLastSyncTime`. -/
def getLastSyncTime (db : DB) : Option String :=
  db.last_sync

/-- `FellowDatabase.setLastSyncTime`: upsert of the single `last_sync` key. -/
def setLastSyncTime (db : DB) (time : String) : DB :=
  { db with last_sync := some time }

structure DbStats where
  notes : Nat
  recordings : Nat
  action_items : Nat
  participants : Nat
deriving DecidableEq

/-- `FellowDatabase.getStats`: row counts, with participants counted as
`COUNT(DISTINCT email)`. -/
def getStats (db : DB) : DbStats :=
  ⟨db.notes.length, db.recordings.length, db.action_items.length,
   ((db.participants.map (fun p => p.email)).dedup).length⟩

/-! ## Remote client boundary and sync orchestrator (src/index.ts) -/

/-- An API note as decoded from a `listNotes` page (interface `Note`). -/
structure ApiNote where
  id : String
  title : String
  created_at : String
  updated_at : String
  event_start : Option String
  event_end : Option String
  event_guid : Option String
  call_url : Option String
  content_markdown : Option String
  event_attendees : Option (List String)
deriving DecidableEq

/-- An API recording as decoded from a `listRecordings` page (interface
`Recording`). The transcript is carried in its serialised form: the sync loop
only ever applies `JSON.stringify` to it before storing, so the embedding
works with the serialised payload directly. -/
structure ApiRecording where
  id : String
  title : String
  note_id : String
  created_at : String
  updated_at : String
  event_start : Option String
  event_end : Option String
  recording_start : Option String
  recording_end : Option String
  event_guid : Option String
  call_url : Option String
  transcript : Option String
deriving DecidableEq

/-- The remote Fellow API for a sync pass. Cursor pagination is assumed
reliable and correctly paginated (spec §1), so the cursor loop is modelled as
the resulting list of page fetches for the given `updated_at_start` filter
(and, for recordings, the `include_transcript` flag); each fetch either
yields a page of entities or throws a `Fellow API error` message. -/
structure Remote where
  notesPages : Option String → List (Except String (List ApiNote))
  recordingsPages : Option String → Bool → List (Except String (List ApiRecording))

structure SyncResult where
  notes_synced : Nat
  recordings_synced : Nat
  action_items_found : Nat
  participants_synced : Nat
deriving DecidableEq

/-- One action-item insertion of the notes loop of `syncNotesFromApi`. -/
def noteActionsStep (now noteId : String) (p : DB × SyncResult) (item : ParsedActionItem) :
    DB × SyncResult :=
  (insertActionItem p.1 ⟨noteId, item.content, item.assignee, item.due_date,
     item.is_completed, now⟩,
   { p.2 with action_items_found := p.2.action_items_found + 1 })

/-- One attendee of the notes loop: skipped when falsy or blank after
trimming, otherwise inserted trimmed, counting every attempt. -/
def attendeeStep (noteId : String) (p : DB × SyncResult) (email : String) : DB × SyncResult :=
  if email == "" then p
  else if jsTrimStr email == "" then p
  else
    (insertParticipant p.1 noteId (jsTrimStr email),
     { p.2 with participants_synced := p.2.participants_synced + 1 })

/-- The `if (note.content_markdown)` block of the notes loop: for truthy
content, clear the note's action items and re-insert the extracted ones. -/
def processNoteContent (now : String) (note : ApiNote) (s : DB × SyncResult) :
    DB × SyncResult :=
  match note.content_markdown with
  | some c =>
    if c == "" then s
    else
      (extractActionItems c).foldl (noteActionsStep now note.id)
        (clearActionItemsForNote s.1 note.id, s.2)
  | none => s

/-- The `if (note.event_attendees && ...)` block of the notes loop. -/
def processNoteAttendees (note : ApiNote) (s : DB × SyncResult) : DB × SyncResult :=
  match note.event_attendees with
  | some attendees =>
    if attendees.isEmpty then s
    else attendees.foldl (attendeeStep note.id) (clearParticipantsForNote s.1 note.id, s.2)
  | none => s

/-- The note fields passed to `db.upsertNote` by the sync loop. -/
def noteToUpsert (note : ApiNote) : NoteUpsert :=
  ⟨note.id, note.title, note.created_at, note.updated_at, note.event_start,
   note.event_end, note.event_guid, note.call_url, note.content_markdown⟩

/-- The per-note body of the notes loop of `syncNotesFromApi`: upsert the
note; when `content_markdown` is truthy, replace its action items with the
freshly extracted ones; when `event_attendees` is present and non-empty,
replace its participants with the valid (non-empty after trimming) attendee
emails, counting every insert attempt. -/
def processNote (now : String) (s : DB × SyncResult) (note : ApiNote) : DB × SyncResult :=
  processNoteAttendees note
    (processNoteContent now note
      (upsertNote s.1 (noteToUpsert note) now,
       { s.2 with notes_synced := s.2.notes_synced + 1 }))

/-- The per-recording body of the recordings loop of `syncNotesFromApi`:
skip when `note_id` is truthy but unknown locally, otherwise upsert. -/
def processRecording (now : String) (s : DB × SyncResult) (rec : ApiRecording) :
    DB × SyncResult :=
  if !(rec.note_id == "") && (getNote s.1 rec.note_id).isNone then s
  else
    (upsertRecording s.1
      ⟨rec.id, rec.note_id, rec.title, rec.created_at, rec.updated_at, rec.event_start,
       rec.event_end, rec.recording_start, rec.recording_end, rec.event_guid, rec.call_url,
       rec.transcript⟩ now,
     { s.2 with recordings_synced := s.2.recordings_synced + 1 })

/-- The notes pagination loop: process pages in order until the cursor is
exhausted or a fetch throws; a throw aborts with the error and the store as
written so far. -/
def runNotesPhase (now : String) :
    List (Except String (List ApiNote)) → DB × SyncResult → Option String × DB × SyncResult
  | [], s => (none, s.1, s.2)
  | .error e :: _, s => (some e, s.1, s.2)
  | .ok page :: rest, s => runNotesPhase now rest (page.foldl (processNote now) s)

/-- The recordings pagination loop. -/
def runRecsPhase (now : String) :
    List (Except String (List ApiRecording)) → DB × SyncResult →
    Option String × DB × SyncResult
  | [], s => (none, s.1, s.2)
  | .error e :: _, s => (some e, s.1, s.2)
  | .ok page :: rest, s => runRecsPhase now rest (page.foldl (processRecording now) s)

/-- The tail of `syncNotesFromApi` after the notes loop succeeded: either the
recordings loop threw, or the watermark is recorded and the result returned. -/
def finishSync (now : String) (x : Option String × DB × SyncResult) :
    Except String SyncResult × DB :=
  match x with
  | (some e, db2, _) => (.error e, db2)
  | (none, db2, res2) => (.ok res2, setLastSyncTime db2 now)

/-- `syncNotesFromApi` from src/index.ts: page through notes (content and
attendees included), then through recordings (transcripts per the flag),
finally record the sync watermark. A thrown API error propagates (no result)
and leaves the store in its partial state. -/
def syncNotesFromApi (remote : Remote) (db : DB) (since : Option String)
    (includeTranscripts : Bool) (now : String) : Except String SyncResult × DB :=
  match runNotesPhase now (remote.notesPages since) (db, ⟨0, 0, 0, 0⟩) with
  | (some e, db1, _) => (.error e, db1)
  | (none, db1, res1) =>
    finishSync now (runRecsPhase now (remote.recordingsPages since includeTranscripts) (db1, res1))

/-- `performIncrementalSync` from src/index.ts: with no stored watermark run
a full sync, otherwise filter both list calls to the watermark. -/
def performIncrementalSync (remote : Remote) (db : DB) (now : String) :
    Except String SyncResult × DB :=
  match getLastSyncTime db with
  | none => syncNotesFromApi remote db none false now
  | some lastSync => syncNotesFromApi remote db (some lastSync) false now

/-! ## The get_all_action_items tool handler (src/index.ts) -/

/-- A tool-call result: the returned text and the protocol `isError` flag. -/
structure ToolResult where
  text : String
  isError : Bool
deriving DecidableEq

/-- JS `Map` grouping by `note_id` in first-occurrence order. -/
def groupByNote (items : List ActionItemRow) : List (String × List ActionItemRow) :=
  items.foldl
    (fun acc item =>
      if acc.any (fun g => g.1 == item.note_id) then
        acc.map (fun g => if g.1 == item.note_id then (g.1, g.2 ++ [item]) else g)
      else acc ++ [(item.note_id, [item])])
    []

def joinAll (l : List String) : String :=
  l.foldl (fun a b => a ++ b) ""

/-- One meeting section of the non-empty output of `get_all_action_items`. -/
def formatGroup (g : String × List ActionItemRow) : String :=
  match g.2 with
  | [] => ""
  | first :: _ =>
    "## " ++ first.note_title ++ "\n" ++ "Date: " ++ first.event_start.getD "N/A" ++ "\n\n" ++
      joinAll (g.2.map (fun item =>
        "- " ++ (if item.is_completed then "[x]" else "[ ]") ++ " " ++ item.content ++
          (match item.assignee with
           | some a => if a == "" then "" else " (@" ++ a ++ ")"
           | none => "") ++
          (match item.due_date with
           | some d => if d == "" then "" else " [due: " ++ d ++ "]"
           | none => "") ++ "\n")) ++ "\n"

/-- The no-match message of `get_all_action_items`: base text, then the sync
error or the sync summary, then the store stats. -/
def noItemsMsg (sres : Except String SyncResult) (stats : DbStats) : String :=
  let msg0 := "No action items found matching the criteria."
  let msg1 :=
    match sres with
    | .error e => msg0 ++ "\n\n⚠️ Sync error: " ++ e
    | .ok r =>
      msg0 ++ "\n\nSync completed: " ++ toString r.notes_synced ++ " notes, " ++
        toString r.action_items_found ++ " action items found."
  msg1 ++ "\n\nDB stats: " ++ toString stats.notes ++ " notes, " ++
    toString stats.action_items ++ " action items total."

/-- The non-empty output of `get_all_action_items`: header plus the items
grouped by meeting. The sync outcome is not mentioned on this path. -/
def itemsOutput (assignee : Option String) (show_completed : Bool) (since : Option String)
    (items : List ActionItemRow) : String :=
  let groups := groupByNote items
  "# All Action Items\n\nTotal: " ++ toString items.length ++ " items from " ++
    toString groups.length ++ " meetings\n" ++
    (match assignee with
     | some a => if a == "" then "" else "Filtered by assignee: " ++ a ++ "\n"
     | none => "") ++
    (match since with
     | some s => if s == "" then "" else "Since: " ++ s ++ "\n"
     | none => "") ++
    "Showing: " ++ (if show_completed then "all" else "incomplete only") ++ "\n\n" ++
    joinAll (groups.map formatGroup)

/-- The `get_all_action_items` tool handler: run an incremental sync first,
catching any failure; query the cached action items (incomplete only unless
`show_completed`); when nothing matches, answer with `noItemsMsg`, otherwise
with `itemsOutput`. Neither path is a protocol error. -/
def getAllActionItemsTool (remote : Remote) (db : DB) (assignee : Option String)
    (show_completed : Bool) (since : Option String) (now : String) : ToolResult × DB :=
  let sres := performIncrementalSync remote db now
  let db1 := sres.2
  let items := getAllActionItems db1 assignee (if show_completed then none else some false) since
  if items.isEmpty then (⟨noItemsMsg sres.1 (getStats db1), false⟩, db1)
  else (⟨itemsOutput assignee show_completed since items, false⟩, db1)

/-! ## Preservation toolkit -/

lemma foldl_pres {σ β : Type _} (f : σ → β → σ) (P : σ → Prop)
    (h : ∀ s b, P s → P (f s b)) : ∀ (l : List β) (s : σ), P s → P (l.foldl f s) := by
  intro l
  induction l with
  | nil => intro s hs; exact hs
  | cons b l ih => intro s hs; exact ih _ (h s b hs)

lemma upsertNote_fields (db : DB) (n : NoteUpsert) (now : String) :
    (upsertNote db n now).recordings = db.recordings ∧
    (upsertNote db n now).action_items = db.action_items ∧
    (upsertNote db n now).participants = db.participants ∧
    (upsertNote db n now).last_sync = db.last_sync := by
  unfold upsertNote; split <;> exact ⟨rfl, rfl, rfl, rfl⟩

lemma upsertRecording_fields (db : DB) (r : RecordingUpsert) (now : String) :
    (upsertRecording db r now).notes = db.notes ∧
    (upsertRecording db r now).action_items = db.action_items ∧
    (upsertRecording db r now).participants = db.participants ∧
    (upsertRecording db r now).last_sync = db.last_sync := by
  unfold upsertRecording; split <;> exact ⟨rfl, rfl, rfl, rfl⟩

lemma insertParticipant_fields (db : DB) (nid e : String) :
    (insertParticipant db nid e).notes = db.notes ∧
    (insertParticipant db nid e).recordings = db.recordings ∧
    (insertParticipant db nid e).action_items = db.action_items ∧
    (insertParticipant db nid e).last_sync = db.last_sync := by
  unfold insertParticipant; split <;> exact ⟨rfl, rfl, rfl, rfl⟩

lemma processNoteContent_fields (now : String) (note : ApiNote) (s : DB × SyncResult) :
    (processNoteContent now note s).1.notes = s.1.notes ∧
    (processNoteContent now note s).1.recordings = s.1.recordings ∧
    (processNoteContent now note s).1.participants = s.1.participants ∧
    (processNoteContent now note s).1.last_sync = s.1.last_sync ∧
    (processNoteContent now note s).2.participants_synced = s.2.participants_synced ∧
    (processNoteContent now note s).2.recordings_synced = s.2.recordings_synced ∧
    (processNoteContent now note s).2.notes_synced = s.2.notes_synced := by
  cases hcm : note.content_markdown with
  | none => simp [processNoteContent, hcm]
  | some c =>
    simp only [processNoteContent, hcm]
    split
    · exact ⟨rfl, rfl, rfl, rfl, rfl, rfl, rfl⟩
    · exact foldl_pres (noteActionsStep now note.id)
        (fun p => p.1.notes = s.1.notes ∧ p.1.recordings = s.1.recordings ∧
          p.1.participants = s.1.participants ∧ p.1.last_sync = s.1.last_sync ∧
          p.2.participants_synced = s.2.participants_synced ∧
          p.2.recordings_synced = s.2.recordings_synced ∧
          p.2.notes_synced = s.2.notes_synced)
        (fun p b hp => hp) (extractActionItems c)
        (clearActionItemsForNote s.1 note.id, s.2) ⟨rfl, rfl, rfl, rfl, rfl, rfl, rfl⟩

lemma attendeeStep_fields (nid : String) (p : DB × SyncResult) (e : String) :
    (attendeeStep nid p e).1.notes = p.1.notes ∧
    (attendeeStep nid p e).1.recordings = p.1.recordings ∧
    (attendeeStep nid p e).1.action_items = p.1.action_items ∧
    (attendeeStep nid p e).1.last_sync = p.1.last_sync ∧
    (attendeeStep nid p e).2.notes_synced = p.2.notes_synced ∧
    (attendeeStep nid p e).2.recordings_synced = p.2.recordings_synced ∧
    (attendeeStep nid p e).2.action_items_found = p.2.action_items_found := by
  unfold attendeeStep
  split
  · exact ⟨rfl, rfl, rfl, rfl, rfl, rfl, rfl⟩
  · split
    · exact ⟨rfl, rfl, rfl, rfl, rfl, rfl, rfl⟩
    · have h := insertParticipant_fields p.1 nid (jsTrimStr e)
      exact ⟨h.1, h.2.1, h.2.2.1, h.2.2.2, rfl, rfl, rfl⟩

lemma processNoteAttendees_fields (note : ApiNote) (s : DB × SyncResult) :
    (processNoteAttendees note s).1.notes = s.1.notes ∧
    (processNoteAttendees note s).1.recordings = s.1.recordings ∧
    (processNoteAttendees note s).1.last_sync = s.1.last_sync ∧
    (processNoteAttendees note s).2.notes_synced = s.2.notes_synced ∧
    (processNoteAttendees note s).2.recordings_synced = s.2.recordings_synced ∧
    (processNoteAttendees note s).2.action_items_found = s.2.action_items_found := by
  cases hea : note.event_attendees with
  | none => simp [processNoteAttendees, hea]
  | some attendees =>
    simp only [processNoteAttendees, hea]
    split
    · exact ⟨rfl, rfl, rfl, rfl, rfl, rfl⟩
    · exact foldl_pres (attendeeStep note.id)
        (fun p => p.1.notes = s.1.notes ∧ p.1.recordings = s.1.recordings ∧
          p.1.last_sync = s.1.last_sync ∧ p.2.notes_synced = s.2.notes_synced ∧
          p.2.recordings_synced = s.2.recordings_synced ∧
          p.2.action_items_found = s.2.action_items_found)
        (fun p b hp => by
          have hb := attendeeStep_fields note.id p b
          exact ⟨hb.1.trans hp.1, hb.2.1.trans hp.2.1, hb.2.2.2.1.trans hp.2.2.1,
            hb.2.2.2.2.1.trans hp.2.2.2.1, hb.2.2.2.2.2.1.trans hp.2.2.2.2.1,
            hb.2.2.2.2.2.2.trans hp.2.2.2.2.2⟩)
        attendees (clearParticipantsForNote s.1 note.id, s.2)
        ⟨rfl, rfl, rfl, rfl, rfl, rfl⟩

lemma processNote_notes (now : String) (s : DB × SyncResult) (note : ApiNote) :
    (processNote now s note).1.notes = (upsertNote s.1 (noteToUpsert note) now).notes := by
  unfold processNote
  have h1 := processNoteContent_fields now note
    (upsertNote s.1 (noteToUpsert note) now, { s.2 with notes_synced := s.2.notes_synced + 1 })
  have h2 := processNoteAttendees_fields note
    (processNoteContent now note
      (upsertNote s.1 (noteToUpsert note) now, { s.2 with notes_synced := s.2.notes_synced + 1 }))
  exact h2.1.trans h1.1

lemma processNote_recordings (now : String) (s : DB × SyncResult) (note : ApiNote) :
    (processNote now s note).1.recordings = s.1.recordings := by
  unfold processNote
  have h1 := processNoteContent_fields now note
    (upsertNote s.1 (noteToUpsert note) now, { s.2 with notes_synced := s.2.notes_synced + 1 })
  have h2 := processNoteAttendees_fields note
    (processNoteContent now note
      (upsertNote s.1 (noteToUpsert note) now, { s.2 with notes_synced := s.2.notes_synced + 1 }))
  exact h2.2.1.trans (h1.2.1.trans (upsertNote_fields s.1 (noteToUpsert note) now).1)

lemma processNote_last_sync (now : String) (s : DB × SyncResult) (note : ApiNote) :
    (processNote now s note).1.last_sync = s.1.last_sync := by
  unfold processNote
  have h1 := processNoteContent_fields now note
    (upsertNote s.1 (noteToUpsert note) now, { s.2 with notes_synced := s.2.notes_synced + 1 })
  have h2 := processNoteAttendees_fields note
    (processNoteContent now note
      (upsertNote s.1 (noteToUpsert note) now, { s.2 with notes_synced := s.2.notes_synced + 1 }))
  exact h2.2.2.1.trans (h1.2.2.2.1.trans (upsertNote_fields s.1 (noteToUpsert note) now).2.2.2)

lemma runNotesPhase_last_sync (now : String) :
    ∀ (pages : List (Except String (List ApiNote))) (s : DB × SyncResult),
      ((runNotesPhase now pages s).2.1).last_sync = s.1.last_sync := by
  intro pages
  induction pages with
  | nil => intro s; rfl
  | cons page rest ih =>
    intro s
    cases page with
    | error e => rfl
    | ok notes =>
      have hfold := foldl_pres (processNote now) (fun p => p.1.last_sync = s.1.last_sync)
        (fun p b hp => (processNote_last_sync now p b).trans hp) notes s rfl
      exact (ih (notes.foldl (processNote now) s)).trans hfold

lemma processRecording_last_sync (now : String) (s : DB × SyncResult) (rec : ApiRecording) :
    (processRecording now s rec).1.last_sync = s.1.last_sync := by
  unfold processRecording
  split
  · rfl
  · exact (upsertRecording_fields s.1 _ now).2.2.2

lemma runRecsPhase_last_sync (now : String) :
    ∀ (pages : List (Except String (List ApiRecording))) (s : DB × SyncResult),
      ((runRecsPhase now pages s).2.1).last_sync = s.1.last_sync := by
  intro pages
  induction pages with
  | nil => intro s; rfl
  | cons page rest ih =>
    intro s
    cases page with
    | error e => rfl
    | ok recs =>
      have hfold := foldl_pres (processRecording now) (fun p => p.1.last_sync = s.1.last_sync)
        (fun p b hp => (processRecording_last_sync now p b).trans hp) recs s rfl
      exact (ih (recs.foldl (processRecording now) s)).trans hfold

/-! ## C3 / C4: sync entry points and the watermark -/

/-- C3: with no stored watermark, the incremental entry point runs exactly
the full-sync pass: the resulting store and the returned result (hence every
upserted entity and all four counts) coincide with those of
`syncNotesFromApi` with no `updated_at_start` filter, for any fixed remote
dataset. -/
theorem incremental_sync_without_watermark_is_full_sync (remote : Remote) (db : DB)
    (now : String) (h : getLastSyncTime db = none) :
    performIncrementalSync remote db now = syncNotesFromApi remote db none false now := by
  unfold performIncrementalSync
  rw [h]

def c3Remote : Remote :=
  ⟨fun _ => [.ok [⟨"n1", "Weekly", "c1", "u1", some "2024-05-01", none, none, none,
      some "- [ ] ship @bob due: 2024-05-02", some ["bob@x.com"]⟩]],
   fun _ _ => [.ok [⟨"r1", "Weekly", "n1", "c1", "u1", none, none, none, none, none, none,
      some "serialized-transcript"⟩]]⟩

theorem incremental_sync_without_watermark_is_full_sync_witness :
    getLastSyncTime emptyDB = none ∧
      performIncrementalSync c3Remote emptyDB "2024-06-01T00:00:00Z" =
        syncNotesFromApi c3Remote emptyDB none false "2024-06-01T00:00:00Z" :=
  ⟨rfl, incremental_sync_without_watermark_is_full_sync c3Remote emptyDB
    "2024-06-01T00:00:00Z" rfl⟩

/-- C4: the last-sync watermark of the resulting store is written exactly by
the final `setLastSyncTime` of a successful pass: on a thrown remote failure
the pass yields the error (no partial result) with the watermark unchanged,
and on success the watermark is the pass's completion time, written after
both page loops. -/
theorem sync_watermark_written_only_on_success (remote : Remote) (db : DB)
    (since : Option String) (it : Bool) (now : String) :
    (syncNotesFromApi remote db since it now).2.last_sync =
      (match (syncNotesFromApi remote db since it now).1 with
       | .error _ => db.last_sync
       | .ok _ => some now) := by
  unfold syncNotesFromApi
  have hN := runNotesPhase_last_sync now (remote.notesPages since) (db, ⟨0, 0, 0, 0⟩)
  rcases hR : runNotesPhase now (remote.notesPages since) (db, ⟨0, 0, 0, 0⟩) with ⟨o1, db1, res1⟩
  rw [hR] at hN
  cases o1 with
  | some e => simpa using hN
  | none =>
    have hdb1 : db1.last_sync = db.last_sync := by simpa using hN
    show (finishSync now (runRecsPhase now (remote.recordingsPages since it) (db1, res1))).2.last_sync
        = match (finishSync now
            (runRecsPhase now (remote.recordingsPages since it) (db1, res1))).1 with
          | .error _ => db.last_sync
          | .ok _ => some now
    have hRec := runRecsPhase_last_sync now (remote.recordingsPages since it) (db1, res1)
    rcases hS : runRecsPhase now (remote.recordingsPages since it) (db1, res1) with ⟨o2, db2, res2⟩
    rw [hS] at hRec
    cases o2 with
    | some e =>
      have hdb2 : db2.last_sync = db1.last_sync := by simpa using hRec
      exact hdb2.trans hdb1
    | none => rfl

/-! ## C1: the coalescing note upsert never regresses content to NULL -/

lemma upsert_map_pred (n : NoteUpsert) (now : String) :
    ((fun m : StoredNote => m.id == n.id) ∘
      (fun m => if m.id == n.id then applyNoteUpdate m n now else m)) =
      (fun m : StoredNote => m.id == n.id) := by
  funext m
  by_cases hm : m.id = n.id
  · simp [applyNoteUpdate, hm]
  · simp [hm]

lemma getNote_upsert_some (db : DB) (n : NoteUpsert) (now : String) (c : String)
    (hc : n.content_markdown = some c) :
    (getNote (upsertNote db n now) n.id).map StoredNote.content_markdown = some (some c) := by
  unfold upsertNote getNote
  by_cases h : (db.notes.any fun m => m.id == n.id) = true
  · rw [if_pos h]
    simp only
    rw [List.find?_map, upsert_map_pred n now]
    have hsome : (db.notes.find? fun m => m.id == n.id).isSome = true := by
      rcases List.any_eq_true.mp h with ⟨m0, hm0, hpm0⟩
      exact List.find?_isSome.mpr ⟨m0, hm0, hpm0⟩
    rcases Option.isSome_iff_exists.mp hsome with ⟨m1, hm1⟩
    have hpm1 : m1.id = n.id := by simpa using List.find?_some hm1
    rw [hm1]
    simp [applyNoteUpdate, hpm1, hc]
  · rw [if_neg h]
    simp only
    rw [List.find?_append]
    have hnone : (db.notes.find? fun m => m.id == n.id) = none := by
      rw [List.find?_eq_none]
      intro x hx hpx
      exact h (List.any_eq_true.mpr ⟨x, hx, hpx⟩)
    rw [hnone]
    simp [hc]

lemma getNote_upsert_none (db : DB) (n : NoteUpsert) (now : String) (sn : StoredNote)
    (hc : n.content_markdown = none) (hget : getNote db n.id = some sn) :
    (getNote (upsertNote db n now) n.id).map StoredNote.content_markdown =
      some sn.content_markdown := by
  unfold upsertNote getNote
  unfold getNote at hget
  have hmem := List.mem_of_find?_eq_some hget
  have hpsn : sn.id = n.id := by simpa using List.find?_some hget
  have hany : (db.notes.any fun m => m.id == n.id) = true :=
    List.any_eq_true.mpr ⟨sn, hmem, by simpa using hpsn⟩
  rw [if_pos hany]
  simp only
  rw [List.find?_map, upsert_map_pred n now, hget]
  simp [applyNoteUpdate, hpsn, hc]

/-- C1: upserting a note with non-absent content and then upserting the same
id with absent (`NULL`) content leaves the stored `content_markdown` at the
first value — the `COALESCE(excluded.content_markdown, content_markdown)`
clause replaces stored content only when the new upsert supplies a value. -/
theorem upsertNote_content_no_regression (db : DB) (n1 n2 : NoteUpsert) (now1 now2 c : String)
    (hc : n1.content_markdown = some c) (hid : n2.id = n1.id)
    (hnone : n2.content_markdown = none) :
    (getNote (upsertNote (upsertNote db n1 now1) n2 now2) n1.id).map
      StoredNote.content_markdown = some (some c) := by
  have h1 := getNote_upsert_some db n1 now1 c hc
  rcases Option.map_eq_some'.mp h1 with ⟨sn, hsn, hsnc⟩
  have h2 := getNote_upsert_none (upsertNote db n1 now1) n2 now2 sn hnone (by rw [hid]; exact hsn)
  rw [hid] at h2
  rw [h2, hsnc]

def c1NoteA : NoteUpsert :=
  ⟨"n1", "Weekly", "c1", "u1", some "2024-05-01", none, none, none, some "agenda text"⟩

def c1NoteB : NoteUpsert :=
  ⟨"n1", "Weekly", "c1", "u2", some "2024-05-01", none, none, none, none⟩

theorem upsertNote_content_no_regression_witness :
    c1NoteA.content_markdown = some "agenda text" ∧ c1NoteB.id = c1NoteA.id ∧
      c1NoteB.content_markdown = none ∧
      (getNote (upsertNote (upsertNote emptyDB c1NoteA "t1") c1NoteB "t2") c1NoteA.id).map
        StoredNote.content_markdown = some (some "agenda text") :=
  ⟨rfl, rfl, rfl,
   upsertNote_content_no_regression emptyDB c1NoteA c1NoteB "t1" "t2" "agenda text" rfl rfl rfl⟩

/-! ## C7: the checkbox example line -/

/-- C7: on the single line `- [x] Finish report @alice due: 2024-03-01` the
extractor yields exactly one item, completed, with the assignee taken by the
secondary mention scan over the content (the checkbox pattern wins, so
pattern 3 never runs) and the ISO due date. -/
theorem extract_checkbox_line_example :
    extractActionItems "- [x] Finish report @alice due: 2024-03-01" =
      [⟨"Finish report @alice due: 2024-03-01", some "alice", some "2024-03-01", true⟩] := by
  decide

/-! ## C8: due-date derivation is shape-checked, not calendar-checked -/

/-- C8 counterexample: `2024-13-45` is not a valid calendar date (month 13,
day 45), yet the derivation returns it verbatim: digit-shaped dates are not
validated, contradicting the claim that malformed dates yield no due date. -/
theorem due_date_no_calendar_validation :
    (parseAssigneeAndDueDate "due: 2024-13-45").dueDate = some "2024-13-45" := by
  decide

/-! ## C9: what the participants counter counts -/

/-- The attendee guard of the sync loop: a truthy string with non-blank
trim. -/
def validEmail (e : String) : Bool :=
  !(e == "") && !(jsTrimStr e == "")

/-- The number of attendee emails of one note that pass the guard (zero when
the attendee block is skipped). -/
def validCount (note : ApiNote) : Nat :=
  match note.event_attendees with
  | some l => if l.isEmpty then 0 else (l.filter validEmail).length
  | none => 0

/-- Insert attempts over the notes pages processed by a pass (pages after a
failing fetch are never reached). -/
def countValidAttendees : List (Except String (List ApiNote)) → Nat
  | [] => 0
  | .error _ :: _ => 0
  | .ok page :: rest => (page.map validCount).sum + countValidAttendees rest

lemma attendeeStep_count (nid : String) (p : DB × SyncResult) (e : String) :
    (attendeeStep nid p e).2.participants_synced =
      p.2.participants_synced + (if validEmail e then 1 else 0) := by
  unfold attendeeStep validEmail
  by_cases h1 : (e == "") = true
  · simp [h1]
  · by_cases h2 : (jsTrimStr e == "") = true
    · simp [h1, h2]
    · simp [h1, h2]

lemma attendeeFold_count (nid : String) :
    ∀ (l : List String) (p : DB × SyncResult),
      ((l.foldl (attendeeStep nid) p)).2.participants_synced =
        p.2.participants_synced + (l.filter validEmail).length := by
  intro l
  induction l with
  | nil => intro p; simp
  | cons e l ih =>
    intro p
    rw [List.foldl_cons, ih (attendeeStep nid p e), attendeeStep_count]
    by_cases hv : validEmail e = true
    · simp [hv, List.filter_cons]
      omega
    · simp [hv, List.filter_cons]

lemma processNoteAttendees_count (note : ApiNote) (s : DB × SyncResult) :
    (processNoteAttendees note s).2.participants_synced =
      s.2.participants_synced + validCount note := by
  cases hea : note.event_attendees with
  | none => simp [processNoteAttendees, validCount, hea]
  | some attendees =>
    simp only [processNoteAttendees, validCount, hea]
    split
    · simp
    · exact attendeeFold_count note.id attendees (clearParticipantsForNote s.1 note.id, s.2)

lemma processNote_participants_count (now : String) (s : DB × SyncResult) (note : ApiNote) :
    (processNote now s note).2.participants_synced =
      s.2.participants_synced + validCount note := by
  unfold processNote
  rw [processNoteAttendees_count]
  have h1 := (processNoteContent_fields now note
    (upsertNote s.1 (noteToUpsert note) now,
     { s.2 with notes_synced := s.2.notes_synced + 1 })).2.2.2.2.1
  rw [h1]

lemma notesFold_count (now : String) :
    ∀ (page : List ApiNote) (s : DB × SyncResult),
      ((page.foldl (processNote now) s)).2.participants_synced =
        s.2.participants_synced + (page.map validCount).sum := by
  intro page
  induction page with
  | nil => intro s; simp
  | cons note page ih =>
    intro s
    rw [List.foldl_cons, ih (processNote now s note), processNote_participants_count]
    simp [Nat.add_assoc]

lemma runNotesPhase_none_count (now : String) :
    ∀ (pages : List (Except String (List ApiNote))) (s : DB × SyncResult),
      (runNotesPhase now pages s).1 = none →
        ((runNotesPhase now pages s).2.2).participants_synced =
          s.2.participants_synced + countValidAttendees pages := by
  intro pages
  induction pages with
  | nil => intro s _; simp [runNotesPhase, countValidAttendees]
  | cons page rest ih =>
    intro s hok
    cases page with
    | error e => simp [runNotesPhase] at hok
    | ok notes =>
      simp only [runNotesPhase, countValidAttendees] at hok ⊢
      rw [ih (notes.foldl (processNote now) s) hok, notesFold_count]
      omega

lemma processRecording_res_participants (now : String) (s : DB × SyncResult)
    (rec : ApiRecording) :
    (processRecording now s rec).2.participants_synced = s.2.participants_synced := by
  unfold processRecording
  split <;> rfl

lemma runRecsPhase_res_participants (now : String) :
    ∀ (pages : List (Except String (List ApiRecording))) (s : DB × SyncResult),
      ((runRecsPhase now pages s).2.2).participants_synced = s.2.participants_synced := by
  intro pages
  induction pages with
  | nil => intro s; rfl
  | cons page rest ih =>
    intro s
    cases page with
    | error e => rfl
    | ok recs =>
      have hfold := foldl_pres (processRecording now)
        (fun p => p.2.participants_synced = s.2.participants_synced)
        (fun p b hp => (processRecording_res_participants now p b).trans hp) recs s rfl
      exact (ih (recs.foldl (processRecording now) s)).trans hfold

/-- C9 (amended): the `participants` field of a successful pass's result is
the number of attendee emails that passed the guard — the number of
`insertParticipant` attempts, duplicates included — not the number of rows
actually inserted. -/
theorem participants_synced_counts_attempts (remote : Remote) (db : DB) (since : Option String)
    (it : Bool) (now : String) (r : SyncResult)
    (h : (syncNotesFromApi remote db since it now).1 = .ok r) :
    r.participants_synced = countValidAttendees (remote.notesPages since) := by
  unfold syncNotesFromApi at h
  rcases hR : runNotesPhase now (remote.notesPages since) (db, ⟨0, 0, 0, 0⟩) with ⟨o1, db1, res1⟩
  rw [hR] at h
  cases o1 with
  | some e => simp at h
  | none =>
    have h2 : (finishSync now
        (runRecsPhase now (remote.recordingsPages since it) (db1, res1))).1 = .ok r := h
    have hcnt := runNotesPhase_none_count now (remote.notesPages since) (db, ⟨0, 0, 0, 0⟩)
      (by rw [hR])
    rw [hR] at hcnt
    simp at hcnt
    have hrec := runRecsPhase_res_participants now (remote.recordingsPages since it) (db1, res1)
    rcases hS : runRecsPhase now (remote.recordingsPages since it) (db1, res1) with ⟨o2, db2, res2⟩
    rw [hS] at h2 hrec
    cases o2 with
    | some e => simp [finishSync] at h2
    | none =>
      have hres : res2 = r := by simpa [finishSync] using h2
      simp at hrec
      rw [← hres, hrec, hcnt]

def c9Remote : Remote :=
  ⟨fun _ => [.ok [⟨"n1", "Planning", "c1", "u1", none, none, none, none, none,
      some ["dup@x.com", "dup@x.com"]⟩]],
   fun _ _ => []⟩

/-- C9 counterexample: a note whose attendee list repeats one email. The pass
reports `participants_synced = 2`, but `INSERT OR IGNORE` stores a single
row, so the counter does not equal the rows actually inserted. -/
theorem participants_counter_exceeds_rows :
    (syncNotesFromApi c9Remote emptyDB none false "T").1 =
        .ok ⟨1, 0, 0, 2⟩ ∧
      (syncNotesFromApi c9Remote emptyDB none false "T").2.participants.length = 1 :=
  ⟨rfl, rfl⟩

def c9WitRemote : Remote :=
  ⟨fun _ => [.ok [⟨"n2", "Retro", "c1", "u1", none, none, none, none, none,
      some ["solo@x.com", " "]⟩]],
   fun _ _ => []⟩

theorem participants_synced_counts_attempts_witness :
    (syncNotesFromApi c9WitRemote emptyDB none false "T").1 =
        Except.ok (⟨1, 0, 0, 1⟩ : SyncResult) ∧
      (⟨1, 0, 0, 1⟩ : SyncResult).participants_synced =
        countValidAttendees (c9WitRemote.notesPages none) :=
  ⟨rfl, participants_synced_counts_attempts c9WitRemote emptyDB none false "T" ⟨1, 0, 0, 1⟩ rfl⟩

/-! ## C10: unescaped LIKE interpolation in the cached-note search -/

def c10Note : StoredNote := ⟨"n1", "abc", "c1", "u1", none, none, none, none, none, "s1"⟩

def c10Db : DB := { emptyDB with notes := [c10Note] }

/-- C10: the query string is interpolated unescaped into the `%…%` LIKE
pattern, so `_` acts as a single-char wildcard: the query `a_c` returns the
note titled `abc` even though `a_c` is not a literal substring of its title
(and its content is NULL). The `search_cached_notes` handler passes its
`query` argument to `searchNotes` unchanged. -/
theorem search_notes_like_wildcard_injection :
    searchNotes c10Db "a_c" = [c10Note] ∧
      strContainsSub c10Note.title "a_c" = false ∧
      c10Note.content_markdown = none := by
  refine ⟨by decide, by decide, rfl⟩

/-! ## C6: sync failures in get_all_action_items -/

lemma listContainsSub_nil (l : List Char) : listContainsSub [] l = true := by
  cases l with
  | nil => rfl
  | cons c rest => simp [listContainsSub, List.isPrefixOf]

lemma isPrefixOf_append_of_isPrefixOf (sub l y : List Char) (h : sub.isPrefixOf l = true) :
    sub.isPrefixOf (l ++ y) = true := by
  rw [List.isPrefixOf_iff_prefix] at h ⊢
  exact h.trans (List.prefix_append l y)

lemma listContainsSub_append_right (sub l y : List Char) (h : listContainsSub sub l = true) :
    listContainsSub sub (l ++ y) = true := by
  induction l with
  | nil =>
    have hsub : sub = [] := by
      cases sub with
      | nil => rfl
      | cons a t => simp [listContainsSub, List.isPrefixOf] at h
    subst hsub
    exact listContainsSub_nil _
  | cons c rest ih =>
    simp only [listContainsSub, Bool.or_eq_true] at h
    rw [List.cons_append]
    simp only [listContainsSub, Bool.or_eq_true]
    cases h with
    | inl hp =>
      left
      have := isPrefixOf_append_of_isPrefixOf sub (c :: rest) y hp
      rwa [List.cons_append] at this
    | inr hr => right; exact ih hr

lemma listContainsSub_append_left (sub x l : List Char) (h : listContainsSub sub l = true) :
    listContainsSub sub (x ++ l) = true := by
  induction x with
  | nil => simpa using h
  | cons c x ih =>
    rw [List.cons_append]
    simp only [listContainsSub, Bool.or_eq_true]
    right
    exact ih

lemma strContainsSub_append_right (p q sub : String) (h : strContainsSub p sub = true) :
    strContainsSub (p ++ q) sub = true := by
  unfold strContainsSub at h ⊢
  rw [String.data_append]
  exact listContainsSub_append_right _ _ _ h

lemma strContainsSub_append_left (p q sub : String) (h : strContainsSub q sub = true) :
    strContainsSub (p ++ q) sub = true := by
  unfold strContainsSub at h ⊢
  rw [String.data_append]
  exact listContainsSub_append_left _ _ _ h

/-- The no-match message built after a failed sync always carries the
`Sync error` marker. -/
lemma noItemsMsg_error_contains (e : String) (stats : DbStats) :
    strContainsSub (noItemsMsg (.error e) stats) "Sync error" = true := by
  unfold noItemsMsg
  simp only
  apply strContainsSub_append_right
  apply strContainsSub_append_right
  apply strContainsSub_append_right
  apply strContainsSub_append_right
  apply strContainsSub_append_right
  apply strContainsSub_append_right
  apply strContainsSub_append_left
  decide

/-- C6 (amended): a failing auto-triggered incremental sync is caught — the
tool returns a normal (non-error) result over the cached store as left by the
failed pass — and the returned text reports the sync failure when no cached
action item matches the filters; the non-empty path reports nothing about
the sync. -/
theorem get_all_action_items_sync_failure_behavior (remote : Remote) (db : DB)
    (a : Option String) (sc : Bool) (si : Option String) (now e : String)
    (h : (performIncrementalSync remote db now).1 = .error e) :
    (getAllActionItemsTool remote db a sc si now).1.isError = false ∧
      (getAllActionItems (performIncrementalSync remote db now).2 a
          (if sc then none else some false) si = [] →
        strContainsSub (getAllActionItemsTool remote db a sc si now).1.text
          "Sync error" = true) := by
  constructor
  · unfold getAllActionItemsTool
    dsimp only
    split <;> split <;> rfl
  · intro hitems
    unfold getAllActionItemsTool
    simp only [hitems, List.isEmpty_nil, if_true]
    rw [h]
    exact noItemsMsg_error_contains e _

def c6Remote : Remote :=
  ⟨fun _ => [.error "Fellow API error (500): boom"], fun _ _ => []⟩

def c6Note : StoredNote :=
  ⟨"n1", "Standup", "c1", "u1", some "2024-01-02", none, none, none, none, "s1"⟩

def c6Db : DB :=
  { emptyDB with
    notes := [c6Note]
    action_items := [⟨1, "n1", "do the thing", some "bob", none, false, "c1"⟩]
    next_action_id := 2
    last_sync := some "2024-01-01T00:00:00Z" }

/-- C6 counterexample: the auto-sync fails, the tool is caught and returns
the cached action item, but the returned text nowhere reports the sync
failure — the `Sync error` notice exists only on the empty-result path, so
the claim's "in every such case the caller's returned text reports that the
sync failed" is false. -/
theorem get_all_action_items_silent_sync_failure :
    (performIncrementalSync c6Remote c6Db "T").1 = .error "Fellow API error (500): boom" ∧
      (getAllActionItemsTool c6Remote c6Db none false none "T").1.isError = false ∧
      strContainsSub (getAllActionItemsTool c6Remote c6Db none false none "T").1.text
          "do the thing" = true ∧
      strContainsSub (getAllActionItemsTool c6Remote c6Db none false none "T").1.text
          "Sync error" = false := by
  refine ⟨rfl, rfl, by decide, by decide⟩

def c6WitRemote : Remote :=
  ⟨fun _ => [.error "Fellow API error (401): nope"], fun _ _ => []⟩

theorem get_all_action_items_sync_failure_behavior_witness :
    (performIncrementalSync c6WitRemote emptyDB "T").1 = .error "Fellow API error (401): nope" ∧
      ((getAllActionItemsTool c6WitRemote emptyDB none false none "T").1.isError = false ∧
        (getAllActionItems (performIncrementalSync c6WitRemote emptyDB "T").2 none
            (if false then none else some false) none = [] →
          strContainsSub (getAllActionItemsTool c6WitRemote emptyDB none false none "T").1.text
            "Sync error" = true)) :=
  ⟨rfl, get_all_action_items_sync_failure_behavior c6WitRemote emptyDB none false none "T"
    "Fellow API error (401): nope" rfl⟩

/-! ## C2: referential integrity of recordings across a sync pass -/

/-- Is a note with this id present (`db.getNote(id)` truthy)? -/
def hasNote (db : DB) (i : String) : Bool :=
  db.notes.any (fun n => n.id == i)

/-- No stored recording references a missing note. A recording with the falsy
note id `""` carries no note reference (the skip guard
`recording.note_id && !db.getNote(...)` treats it as such). -/
def orphanFree (db : DB) : Bool :=
  db.recordings.all (fun r => r.note_id == "" || hasNote db r.note_id)

lemma hasNote_congr {a b : DB} (h : a.notes = b.notes) (i : String) :
    hasNote a i = hasNote b i := by
  unfold hasNote
  rw [h]

lemma hasNote_iff_getNote (db : DB) (i : String) :
    hasNote db i = true ↔ (getNote db i).isSome = true := by
  unfold hasNote getNote
  rw [List.any_eq_true, List.find?_isSome]

lemma orphanFree_iff (db : DB) :
    orphanFree db = true ↔
      ∀ r ∈ db.recordings, r.note_id = "" ∨ hasNote db r.note_id = true := by
  unfold orphanFree
  rw [List.all_eq_true]
  constructor
  · intro h r hr
    simpa using h r hr
  · intro h r hr
    simpa using h r hr

lemma upsert_map_id (x : StoredNote) (n : NoteUpsert) (now : String) :
    (if x.id == n.id then applyNoteUpdate x n now else x).id = x.id := by
  by_cases hxn : x.id = n.id
  · simp [applyNoteUpdate, hxn]
  · simp [hxn]

lemma upsertNote_hasNote (db : DB) (n : NoteUpsert) (now : String) (i : String)
    (h : hasNote db i = true) : hasNote (upsertNote db n now) i = true := by
  unfold hasNote at h ⊢
  unfold upsertNote
  by_cases hb : (db.notes.any fun m => m.id == n.id) = true
  · rw [if_pos hb]
    rcases List.any_eq_true.mp h with ⟨x, hx, hpx⟩
    refine List.any_eq_true.mpr
      ⟨if x.id == n.id then applyNoteUpdate x n now else x, List.mem_map_of_mem _ hx, ?_⟩
    rw [upsert_map_id]
    exact hpx
  · rw [if_neg hb]
    rcases List.any_eq_true.mp h with ⟨x, hx, hpx⟩
    exact List.any_eq_true.mpr ⟨x, List.mem_append_left _ hx, hpx⟩

lemma processNote_hasNote (now : String) (s : DB × SyncResult) (note : ApiNote) (i : String)
    (h : hasNote s.1 i = true) : hasNote (processNote now s note).1 i = true := by
  rw [hasNote_congr (processNote_notes now s note) i]
  exact upsertNote_hasNote s.1 (noteToUpsert note) now i h

lemma runNotesPhase_hasNote (now : String) :
    ∀ (pages : List (Except String (List ApiNote))) (s : DB × SyncResult) (i : String),
      hasNote s.1 i = true → hasNote (runNotesPhase now pages s).2.1 i = true := by
  intro pages
  induction pages with
  | nil => intro s i h; exact h
  | cons page rest ih =>
    intro s i h
    cases page with
    | error e => exact h
    | ok notes =>
      exact ih (notes.foldl (processNote now) s) i
        (foldl_pres (processNote now) (fun p => hasNote p.1 i = true)
          (fun p b hp => processNote_hasNote now p b i hp) notes s h)

lemma runNotesPhase_recordings (now : String) :
    ∀ (pages : List (Except String (List ApiNote))) (s : DB × SyncResult),
      ((runNotesPhase now pages s).2.1).recordings = s.1.recordings := by
  intro pages
  induction pages with
  | nil => intro s; rfl
  | cons page rest ih =>
    intro s
    cases page with
    | error e => rfl
    | ok notes =>
      exact (ih (notes.foldl (processNote now) s)).trans
        (foldl_pres (processNote now) (fun p => p.1.recordings = s.1.recordings)
          (fun p b hp => (processNote_recordings now p b).trans hp) notes s rfl)

lemma runNotesPhase_orphanFree (now : String)
    (pages : List (Except String (List ApiNote))) (s : DB × SyncResult)
    (h : orphanFree s.1 = true) : orphanFree (runNotesPhase now pages s).2.1 = true := by
  rw [orphanFree_iff] at h ⊢
  intro r hr
  rw [runNotesPhase_recordings now pages s] at hr
  rcases h r hr with hid | hhn
  · exact Or.inl hid
  · exact Or.inr (runNotesPhase_hasNote now pages s r.note_id hhn)

lemma upsertRecording_note_ids (db : DB) (R : RecordingUpsert) (now : String)
    (P : String → Prop) (hR : P R.note_id) (hall : ∀ r ∈ db.recordings, P r.note_id) :
    ∀ r ∈ (upsertRecording db R now).recordings, P r.note_id := by
  intro r hr
  unfold upsertRecording at hr
  by_cases hb : (db.recordings.any fun m => m.id == R.id) = true
  · rw [if_pos hb] at hr
    rcases List.mem_map.mp hr with ⟨m, hm, heq⟩
    by_cases hmr : m.id = R.id
    · rw [← heq]
      simp only [hmr, beq_self_eq_true, if_true]
      exact hR
    · rw [← heq]
      have hne : (m.id == R.id) = false := by simp [hmr]
      simp only [hne, Bool.false_eq_true, if_false]
      exact hall m hm
  · rw [if_neg hb] at hr
    rcases List.mem_append.mp hr with hin | hnew
    · exact hall r hin
    · rw [List.mem_singleton.mp hnew]
      exact hR

lemma processRecording_notes (now : String) (s : DB × SyncResult) (rec : ApiRecording) :
    (processRecording now s rec).1.notes = s.1.notes := by
  unfold processRecording
  split
  · rfl
  · exact (upsertRecording_fields s.1 _ now).1

lemma processRecording_orphanFree (now : String) (s : DB × SyncResult) (rec : ApiRecording)
    (h : orphanFree s.1 = true) : orphanFree (processRecording now s rec).1 = true := by
  rw [orphanFree_iff] at h ⊢
  unfold processRecording
  split
  · exact fun r hr => h r hr
  · rename_i hcond
    intro r hr
    have hnotes : (upsertRecording s.1
        ⟨rec.id, rec.note_id, rec.title, rec.created_at, rec.updated_at, rec.event_start,
         rec.event_end, rec.recording_start, rec.recording_end, rec.event_guid, rec.call_url,
         rec.transcript⟩ now).notes = s.1.notes := (upsertRecording_fields s.1 _ now).1
    have hcongr := hasNote_congr hnotes
    have hguard : rec.note_id = "" ∨ hasNote s.1 rec.note_id = true := by
      by_cases hid : rec.note_id = ""
      · exact Or.inl hid
      · right
        rw [hasNote_iff_getNote]
        by_contra hns
        apply hcond
        have hidb : (rec.note_id == "") = false := by simp [hid]
        rw [hidb]
        simp only [Bool.not_false, Bool.true_and]
        cases hopt : getNote s.1 rec.note_id with
        | none => rfl
        | some v => exact absurd (by rw [hopt]; rfl) hns
    have hall : ∀ x ∈ s.1.recordings, x.note_id = "" ∨ hasNote s.1 x.note_id = true :=
      fun x hx => h x hx
    have := upsertRecording_note_ids s.1 _ now
      (fun nid => nid = "" ∨ hasNote s.1 nid = true) hguard hall r hr
    rcases this with hid | hhn
    · exact Or.inl hid
    · right
      rw [hcongr r.note_id]
      exact hhn

lemma runRecsPhase_orphanFree (now : String) :
    ∀ (pages : List (Except String (List ApiRecording))) (s : DB × SyncResult),
      orphanFree s.1 = true → orphanFree (runRecsPhase now pages s).2.1 = true := by
  intro pages
  induction pages with
  | nil => intro s h; exact h
  | cons page rest ih =>
    intro s h
    cases page with
    | error e => exact h
    | ok recs =>
      exact ih (recs.foldl (processRecording now) s)
        (foldl_pres (processRecording now) (fun p => orphanFree p.1 = true)
          (fun p b hp => processRecording_orphanFree now p b hp) recs s h)

lemma orphanFree_setLastSyncTime (db : DB) (t : String) :
    orphanFree (setLastSyncTime db t) = orphanFree db := rfl

/-- C2: a sync pass preserves referential integrity: starting from a store
with no orphan recording, no recording of the resulting store (success or
abort) references a note id that is absent — a recording whose truthy
`note_id` is unknown at write time is skipped, notes are never deleted, and
every upserted recording passed the skip guard. -/
theorem sync_preserves_recording_integrity (remote : Remote) (db : DB) (since : Option String)
    (it : Bool) (now : String) (h : orphanFree db = true) :
    orphanFree (syncNotesFromApi remote db since it now).2 = true := by
  unfold syncNotesFromApi
  have h1 := runNotesPhase_orphanFree now (remote.notesPages since) (db, ⟨0, 0, 0, 0⟩) h
  rcases hR : runNotesPhase now (remote.notesPages since) (db, ⟨0, 0, 0, 0⟩) with ⟨o1, db1, res1⟩
  rw [hR] at h1
  cases o1 with
  | some e => exact h1
  | none =>
    show orphanFree (finishSync now
      (runRecsPhase now (remote.recordingsPages since it) (db1, res1))).2 = true
    have h2 := runRecsPhase_orphanFree now (remote.recordingsPages since it) (db1, res1) h1
    rcases hS : runRecsPhase now (remote.recordingsPages since it) (db1, res1) with ⟨o2, db2, res2⟩
    rw [hS] at h2
    cases o2 with
    | some e => exact h2
    | none =>
      show orphanFree (setLastSyncTime db2 now) = true
      rw [orphanFree_setLastSyncTime]
      exact h2

def c2Remote : Remote :=
  ⟨fun _ => [.ok [⟨"n1", "Standup", "c1", "u1", none, none, none, none, none, none⟩]],
   fun _ _ => [.ok [⟨"r1", "Standup", "n1", "c1", "u1", none, none, none, none, none, none,
      none⟩,
     ⟨"r2", "Ghost", "missing", "c1", "u1", none, none, none, none, none, none, none⟩]]⟩

theorem sync_preserves_recording_integrity_witness :
    orphanFree emptyDB = true ∧
      orphanFree (syncNotesFromApi c2Remote emptyDB none false "T").2 = true ∧
      (syncNotesFromApi c2Remote emptyDB none false "T").2.recordings.length = 1 :=
  ⟨rfl, sync_preserves_recording_integrity c2Remote emptyDB none false "T" rfl, rfl⟩

/-! ## C5: participant intersection queries -/

/-- C5: for a non-empty email list, the all-participants query returns
exactly the notes whose count of distinct matching participant emails equals
the number of supplied emails, and each such note is also returned by the
any-participant query. -/
theorem all_participants_query_spec (db : DB) (emails : List String) (n : StoredNote)
    (h : emails ≠ []) :
    (n ∈ getMeetingsWithAllParticipants db emails ↔
      n ∈ db.notes ∧ countDistinctMatching db n.id emails = emails.length) ∧
    (n ∈ getMeetingsWithAllParticipants db emails → n ∈ getMeetingsByParticipants db emails) := by
  have hne : ¬ emails.isEmpty = true := by
    cases emails with
    | nil => exact absurd rfl h
    | cons a t => simp
  have hall : n ∈ getMeetingsWithAllParticipants db emails ↔
      n ∈ db.notes ∧ countDistinctMatching db n.id emails = emails.length := by
    unfold getMeetingsWithAllParticipants sortNotesByEventStart
    rw [if_neg hne, List.mem_insertionSort, List.mem_filter]
    simp only [beq_iff_eq]
  have hany : n ∈ db.notes ∧ countDistinctMatching db n.id emails = emails.length →
      n ∈ getMeetingsByParticipants db emails := by
    rintro ⟨hmem, hcnt⟩
    unfold getMeetingsByParticipants sortNotesByEventStart
    rw [if_neg hne, List.mem_insertionSort, List.mem_filter]
    refine ⟨hmem, ?_⟩
    have hpos : 0 < countDistinctMatching db n.id emails := by
      rw [hcnt, List.length_pos]
      exact h
    unfold countDistinctMatching at hpos
    rw [List.length_pos] at hpos
    rcases List.exists_mem_of_ne_nil _ hpos with ⟨em, hem⟩
    rw [List.mem_dedup] at hem
    rcases List.mem_map.mp hem with ⟨p, hp, _⟩
    rcases List.mem_filter.mp hp with ⟨hpmem, hppred⟩
    exact List.any_eq_true.mpr ⟨p, hpmem, hppred⟩
  exact ⟨hall, fun hx => hany (hall.mp hx)⟩

def c5NoteAB : StoredNote := ⟨"nab", "Pair", "c1", "u1", none, none, none, none, none, "s"⟩

def c5NoteA : StoredNote := ⟨"na", "Solo", "c1", "u1", none, none, none, none, none, "s"⟩

def c5Db : DB :=
  { emptyDB with
    notes := [c5NoteAB, c5NoteA]
    participants := [⟨1, "nab", "a@x.com"⟩, ⟨2, "nab", "b@x.com"⟩, ⟨3, "na", "a@x.com"⟩]
    next_participant_id := 4 }

theorem all_participants_query_spec_witness :
    (["a@x.com", "b@x.com"] : List String) ≠ [] ∧
      ((c5NoteAB ∈ getMeetingsWithAllParticipants c5Db ["a@x.com", "b@x.com"] ↔
        c5NoteAB ∈ c5Db.notes ∧
          countDistinctMatching c5Db c5NoteAB.id ["a@x.com", "b@x.com"] = 2) ∧
      (c5NoteAB ∈ getMeetingsWithAllParticipants c5Db ["a@x.com", "b@x.com"] →
        c5NoteAB ∈ getMeetingsByParticipants c5Db ["a@x.com", "b@x.com"])) :=
  ⟨by decide, all_participants_query_spec c5Db ["a@x.com", "b@x.com"] c5NoteAB (by decide)⟩

/-! ## C8 (amended): shape of any derived due date -/

lemma takeExact_spec :
    ∀ (n : Nat) (p : Char → Bool) (t u r : List Char),
      takeExact n p t = some (u, r) → u.length = n ∧ u.all p = true := by
  intro n
  induction n with
  | zero =>
    intro p t u r h
    unfold takeExact at h
    simp at h
    obtain ⟨hu, _⟩ := h
    subst hu
    exact ⟨rfl, rfl⟩
  | succ n ih =>
    intro p t u r h
    cases t with
    | nil => simp [takeExact] at h
    | cons c t =>
      unfold takeExact at h
      by_cases hp : p c = true
      · rw [if_pos hp] at h
        cases hq : takeExact n p t with
        | none => rw [hq] at h; simp at h
        | some pr =>
          rw [hq] at h
          simp at h
          obtain ⟨hu, _⟩ := h
          rcases ih p t pr.1 pr.2 (by rw [hq]) with ⟨hlen, hall⟩
          subst hu
          constructor
          · simp [hlen]
          · simp [hp, hall]
      · rw [if_neg hp] at h
        simp at h

lemma tryIso_shape (t : List Char) (s : String) (h : tryIso t = some s) :
    ∃ y m d : String, s = y ++ "-" ++ m ++ "-" ++ d ∧
      y.data.all Char.isDigit = true ∧ y.length = 4 ∧
      m.data.all Char.isDigit = true ∧ m.length = 2 ∧
      d.data.all Char.isDigit = true ∧ d.length = 2 := by
  unfold tryIso at h
  rcases Option.bind_eq_some.mp h with ⟨yr, hy, h⟩
  rcases Option.bind_eq_some.mp h with ⟨t2, _, h⟩
  rcases Option.bind_eq_some.mp h with ⟨mr, hm, h⟩
  rcases Option.bind_eq_some.mp h with ⟨t4, _, h⟩
  rcases Option.map_eq_some'.mp h with ⟨dr, hd, hs⟩
  rcases takeExact_spec 4 Char.isDigit t yr.1 yr.2 hy with ⟨hyl, hya⟩
  rcases takeExact_spec 2 Char.isDigit t2 mr.1 mr.2 hm with ⟨hml, hma⟩
  rcases takeExact_spec 2 Char.isDigit t4 dr.1 dr.2 hd with ⟨hdl, hda⟩
  exact ⟨String.mk yr.1, String.mk mr.1, String.mk dr.1, hs.symm, hya, hyl, hma, hml, hda, hdl⟩

lemma digits12Slash_spec (t : List Char) (s : String) (r : List Char)
    (h : digits12Slash t = some (s, r)) :
    s.data.all Char.isDigit = true ∧ (s.length = 1 ∨ s.length = 2) := by
  unfold digits12Slash at h
  cases t with
  | nil => simp at h
  | cons a t1 =>
    cases t1 with
    | nil => simp at h
    | cons b t2 =>
      cases t2 with
      | nil =>
        dsimp only at h
        split_ifs at h with h1
        · simp only [Option.some.injEq, Prod.mk.injEq] at h
          obtain ⟨hs, _⟩ := h
          subst hs
          simp only [Bool.and_eq_true] at h1
          exact ⟨by simp [h1.1], Or.inl rfl⟩
      | cons c t3 =>
        dsimp only at h
        split_ifs at h with h1 h2
        · simp only [Option.some.injEq, Prod.mk.injEq] at h
          obtain ⟨hs, _⟩ := h
          subst hs
          simp only [Bool.and_eq_true] at h1
          exact ⟨by simp [h1.1.1, h1.1.2], Or.inr rfl⟩
        · simp only [Option.some.injEq, Prod.mk.injEq] at h
          obtain ⟨hs, _⟩ := h
          subst hs
          simp only [Bool.and_eq_true] at h2
          exact ⟨by simp [h2.1], Or.inl rfl⟩

lemma tryUs_shape (t : List Char) (m d y : String) (h : tryUs t = some (m, d, y)) :
    m.data.all Char.isDigit = true ∧ (m.length = 1 ∨ m.length = 2) ∧
    d.data.all Char.isDigit = true ∧ (d.length = 1 ∨ d.length = 2) ∧
    y.data.all Char.isDigit = true ∧ 2 ≤ y.length ∧ y.length ≤ 4 := by
  unfold tryUs at h
  rcases Option.bind_eq_some.mp h with ⟨mr, hm, h⟩
  rcases Option.bind_eq_some.mp h with ⟨dr, hd, h⟩
  rcases digits12Slash_spec t mr.1 mr.2 (by rw [hm]) with ⟨hma, hml⟩
  rcases digits12Slash_spec mr.2 dr.1 dr.2 (by rw [hd]) with ⟨hda, hdl⟩
  simp only at h
  split_ifs at h with hrun
  · simp only [Option.some.injEq, Prod.mk.injEq] at h
    obtain ⟨hm2, hd2, hy2⟩ := h
    subst hm2; subst hd2; subst hy2
    refine ⟨hma, hml, hda, hdl, ?_, ?_, ?_⟩
    · rw [List.all_eq_true]
      intro c hc
      have hmem := List.mem_of_mem_take
        (show c ∈ List.take 4 (dr.2.takeWhile Char.isDigit) from hc)
      exact List.all_eq_true.mp List.all_takeWhile c hmem
    · show 2 ≤ (List.take 4 (dr.2.takeWhile Char.isDigit)).length
      rw [List.length_take]
      exact le_min (by norm_num) hrun
    · show (List.take 4 (dr.2.takeWhile Char.isDigit)).length ≤ 4
      rw [List.length_take]
      exact min_le_left _ _

lemma padStart2_spec (s : String) (hd : s.data.all Char.isDigit = true)
    (hl : s.length = 1 ∨ s.length = 2) :
    (padStart2 s).data.all Char.isDigit = true ∧ (padStart2 s).length = 2 := by
  unfold padStart2
  by_cases h2 : s.length ≥ 2
  · rw [if_pos h2]
    exact ⟨hd, by omega⟩
  · rw [if_neg h2]
    constructor
    · rw [String.data_append]
      simp [hd]
    · rw [String.length_append, show ("0" : String).length = 1 from rfl]
      omega

lemma usToDue_shape (m d y : String)
    (hm : m.data.all Char.isDigit = true) (hml : m.length = 1 ∨ m.length = 2)
    (hd : d.data.all Char.isDigit = true) (hdl : d.length = 1 ∨ d.length = 2)
    (hy : y.data.all Char.isDigit = true) (hy2 : 2 ≤ y.length) (hy4 : y.length ≤ 4) :
    ∃ yy mm dd : String, usToDue m d y = yy ++ "-" ++ mm ++ "-" ++ dd ∧
      yy.data.all Char.isDigit = true ∧ (yy.length = 3 ∨ yy.length = 4) ∧
      mm.data.all Char.isDigit = true ∧ mm.length = 2 ∧
      dd.data.all Char.isDigit = true ∧ dd.length = 2 := by
  rcases padStart2_spec m hm hml with ⟨hpm, hpml⟩
  rcases padStart2_spec d hd hdl with ⟨hpd, hpdl⟩
  unfold usToDue
  by_cases h2 : y.length = 2
  · rw [if_pos (by simp [h2])]
    refine ⟨"20" ++ y, padStart2 m, padStart2 d, rfl, ?_, ?_, hpm, hpml, hpd, hpdl⟩
    · rw [String.data_append]
      simp [hy]
    · right
      rw [String.length_append, show ("20" : String).length = 2 from rfl]
      omega
  · rw [if_neg (by simp [h2])]
    exact ⟨y, padStart2 m, padStart2 d, rfl, hy, by omega, hpm, hpml, hpd, hpdl⟩

lemma scanFor_some {α : Type _} (f : List Char → Option α) :
    ∀ (t : List Char) (x : α), scanFor f t = some x → ∃ u, f u = some x := by
  intro t
  induction t with
  | nil => intro x h; exact ⟨[], h⟩
  | cons c t ih =>
    intro x h
    unfold scanFor at h
    cases hf : f (c :: t) with
    | some r =>
      rw [hf] at h
      simp at h
      subst h
      exact ⟨c :: t, hf⟩
    | none =>
      rw [hf] at h
      exact ih x h

lemma tryKw_some {α : Type _} (cont : List Char → Option α) (t : List Char) (x : α)
    (h : tryKw cont t = some x) : ∃ u, cont u = some x := by
  unfold tryKw at h
  cases h1 : (matchLitCI "due".data t).bind cont with
  | some r =>
    rw [h1] at h
    rcases Option.bind_eq_some.mp h1 with ⟨u, _, hc⟩
    exact ⟨u, hc.trans (by simpa using h)⟩
  | none =>
    rw [h1] at h
    cases h2 : (matchLitCI "by".data t).bind cont with
    | some r =>
      rw [h2] at h
      rcases Option.bind_eq_some.mp h2 with ⟨u, _, hc⟩
      exact ⟨u, hc.trans (by simpa using h)⟩
    | none =>
      rw [h2] at h
      rcases Option.bind_eq_some.mp h with ⟨u, _, hc⟩
      exact ⟨u, hc⟩

/-- C8 (amended): the due-date derivation is a total function — no input
raises — and whenever it produces a date at all, the date has the normalised
digit shape `year-month-day` (year three or four digits, month and day
exactly two). Text after a due/by/deadline keyword that fits neither digit
pattern yields no due date; no calendar validation is performed. -/
theorem due_date_shape_or_absent (text d : String)
    (h : (parseAssigneeAndDueDate text).dueDate = some d) :
    ∃ y m dd : String, d = y ++ "-" ++ m ++ "-" ++ dd ∧
      y.data.all Char.isDigit = true ∧ (y.length = 3 ∨ y.length = 4) ∧
      m.data.all Char.isDigit = true ∧ m.length = 2 ∧
      dd.data.all Char.isDigit = true ∧ dd.length = 2 := by
  unfold parseAssigneeAndDueDate at h
  dsimp only at h
  cases hiso : scanFor (tryKw fun r => tryIso (afterColonWs r)) text.data with
  | some d0 =>
    rw [hiso] at h
    simp at h
    subst h
    rcases scanFor_some _ text.data d0 hiso with ⟨u, hu⟩
    rcases tryKw_some _ u d0 hu with ⟨v, hv⟩
    rcases tryIso_shape (afterColonWs v) d0 hv with ⟨y, m, dd, hs, hya, hyl, hma, hml, hda, hdl⟩
    exact ⟨y, m, dd, hs, hya, Or.inr hyl, hma, hml, hda, hdl⟩
  | none =>
    rw [hiso] at h
    rcases Option.map_eq_some'.mp h with ⟨p, hp, hd⟩
    rcases scanFor_some _ text.data p hp with ⟨u, hu⟩
    rcases tryKw_some _ u p hu with ⟨v, hv⟩
    rcases tryUs_shape (afterColonWs v) p.1 p.2.1 p.2.2 (by rw [hv]) with
      ⟨hma, hml, hda, hdl, hya, hy2, hy4⟩
    rcases usToDue_shape p.1 p.2.1 p.2.2 hma hml hda hdl hya hy2 hy4 with
      ⟨yy, mm, dd, hs, hall⟩
    exact ⟨yy, mm, dd, by rw [← hd, hs], hall.1, hall.2.1, hall.2.2.1, hall.2.2.2.1,
      hall.2.2.2.2.1, hall.2.2.2.2.2⟩

theorem due_date_shape_or_absent_witness :
    (parseAssigneeAndDueDate "- [ ] Review PR by 3/5/24").dueDate = some "2024-03-05" ∧
      (∃ y m dd : String, "2024-03-05" = y ++ "-" ++ m ++ "-" ++ dd ∧
        y.data.all Char.isDigit = true ∧ (y.length = 3 ∨ y.length = 4) ∧
        m.data.all Char.isDigit = true ∧ m.length = 2 ∧
        dd.data.all Char.isDigit = true ∧ dd.length = 2) :=
  ⟨rfl, due_date_shape_or_absent "- [ ] Review PR by 3/5/24" "2024-03-05" rfl⟩
